import Mathlib

/-! Shallow embedding of the Jan model-registry subsystem: the
`JanModelExtension` class (GGUF metadata extraction, descriptor
synthesis, folder allocation, local import with copy progress,
remote download-progress polling, descriptor update) and the
restful-helper `deleteBuilder`, together with proofs about their
behaviour.

JavaScript values relevant to the embedded functions (GGUF header
metadata entries, descriptor fields) are modelled by `JsVal`:
`undefined` stands for JavaScript `undefined`, and property access on a
plain object yields `undefined` when the key is missing.  Fallible
JavaScript computations return `Except JsError`; a thrown `TypeError`
from subscripting `undefined` is `JsError.typeError`. -/

namespace JanModel

/-- A JavaScript runtime error: a `TypeError` thrown by subscripting
`undefined`, or a generic error carrying a message. -/
inductive JsError where
  | typeError
  | jsThrow (msg : String)
deriving DecidableEq, Repr

/-- JavaScript values that occur in GGUF header metadata and in the
nested objects of a model descriptor: `undefined`, numbers, strings,
and arrays of strings (token tables, tag lists, stop lists). -/
inductive JsVal where
  | undefined
  | num (n : Nat)
  | str (s : String)
  | arr (xs : List String)
deriving DecidableEq, Repr

/-- A JavaScript object, as an association list of key/value bindings
(the first binding of a key wins, as in object property lookup). -/
abbrev Obj := List (String × JsVal)

/-- The raw binding of key `k` in object `o`, when a binding exists. -/
def objEntry (o : Obj) (k : String) : Option JsVal :=
  match o with
  | [] => none
  | e :: rest => if e.1 = k then some e.2 else objEntry rest k

/-- JavaScript property access: `undefined` when the key is absent. -/
def getProp (o : Obj) (k : String) : JsVal :=
  (objEntry o k).getD .undefined

/-- JavaScript truthiness of a value. -/
def jsTruthy : JsVal → Bool
  | .undefined => false
  | .num n => n != 0
  | .str s => s != ""
  | .arr _ => true

/-- Template-literal stringification of a value, as performed by
backtick interpolation: `undefined` prints as the word "undefined",
arrays join their elements with commas. -/
def jsTemplate : JsVal → String
  | .undefined => "undefined"
  | .num n => toString n
  | .str s => s
  | .arr xs => String.intercalate "," xs

/-- Nullish coalescing `a ?? b` (no `null` occurs in this model). -/
def jsCoalesce (a b : JsVal) : JsVal :=
  if a = .undefined then b else a

/-- JavaScript `v + 1` as it occurs in the `ngl` computation: numeric
addition on numbers, string concatenation otherwise.  The `undefined` case
is unreachable there because the operand went through `?? 32`. -/
def jsAddOne : JsVal → JsVal
  | .num n => .num (n + 1)
  | .str s => .str (s ++ "1")
  | .arr xs => .str (String.intercalate "," xs ++ "1")
  | .undefined => .undefined

/-- Subscripting a defined value with a numeric index: array element,
single character of a string, `undefined` (`none`) otherwise. -/
def jsIndexNat : JsVal → Nat → Option String
  | .arr xs, n => xs[n]?
  | .str s, n => (s.data[n]?).map (fun c => String.mk [c])
  | _, _ => none

/-- The numeric index denoted by a value used as an array subscript:
numbers directly, numeric strings through coercion. -/
def jsSubscript : JsVal → Option Nat
  | .num n => some n
  | .str s => s.toNat?
  | _ => none

/-- `table[idx]` for a defined `table`: `none` models `undefined`. -/
def jsIndexBy (table idx : JsVal) : Option String :=
  match jsSubscript idx with
  | some n => jsIndexNat table n
  | none => none

/-- JavaScript object spread of `b` over `a`: every key of `a`, its
value overridden when `b` also binds it, followed by the keys bound
only in `b`. -/
def mergeObj (a b : Obj) : Obj :=
  a.map (fun e => (e.1, (objEntry b e.1).getD e.2)) ++
    b.filter (fun e => (objEntry a e.1).isNone)

/-- One entry of a descriptor `sources` list. -/
structure Source where
  url : String
  filename : Option String
deriving DecidableEq, Repr

/-- A model descriptor (`Model` / `ModelFile`).  The nested
`settings`, `parameters` and `metadata` objects are kept as JavaScript
objects.  `file_path` and `file_name` are the transient fields
attached at read time; `none` models both JavaScript `undefined` and
the key being dropped by `JSON.stringify` on persist. -/
structure Model where
  id : String
  name : String
  sources : List Source
  engine : String
  description : String
  created : Nat
  settings : Obj
  parameters : Obj
  metadata : Obj
  file_path : Option String
  file_name : Option String
deriving DecidableEq, Repr

/-- The value returned by `retrieveGGUFMetadata`: a partial descriptor
holding freshly extracted `settings` and `parameters`. -/
structure GGUFUpdate where
  settings : Obj
  parameters : Obj
deriving DecidableEq, Repr

/-- The template-stringified `general.architecture` entry, as produced
by the interpolation building the architecture-qualified keys (the
word "undefined" when the entry is absent). -/
def archName (md : Obj) : String :=
  jsTemplate (getProp md "general.architecture")

/-- `JanModelExtension.retrieveGGUFMetadata`.  `md?` is the raw header
metadata argument (`none` models being called with `undefined`, which
throws on the first subscript).  `defaultModel` stands for the module
constant `DEFAULT_MODEL`; `template?` is the outcome of the external
`renderJinjaTemplate` call whose failures were caught to `undefined`.

Mirrors the source: `ctx_len` is the architecture-qualified
context-length entry, else `llama.context_length`, else 4096; `ngl` is
the architecture-qualified block-count entry, else `llama.block_count`,
else 32, plus one; `stop` subscripts the `tokenizer.ggml.tokens` table
with the truthy `tokenizer.ggml.eos_token_id` (the optional chain sits
on `metadata` itself, so an absent token table is subscripted as
`undefined` and throws), and otherwise falls back to the default
stop list of the default descriptor. -/
def retrieveGGUFMetadata (md? : Option Obj) (defaultModel : Model)
    (template? : Option String) : Except JsError GGUFUpdate :=
  match md? with
  | none => .error .typeError
  | some md =>
    let eosId := getProp md "tokenizer.ggml.eos_token_id"
    let arch := archName md
    let newSettings : Obj :=
      [("prompt_template",
          (template?.map JsVal.str).getD (getProp defaultModel.settings "prompt_template")),
       ("ctx_len",
          jsCoalesce (getProp md (arch ++ ".context_length"))
            (jsCoalesce (getProp md "llama.context_length") (.num 4096))),
       ("ngl",
          jsAddOne
            (jsCoalesce (getProp md (arch ++ ".block_count"))
              (jsCoalesce (getProp md "llama.block_count") (.num 32))))]
    if jsTruthy eosId then
      match getProp md "tokenizer.ggml.tokens" with
      | .undefined => .error .typeError
      | tokens =>
        .ok { settings := newSettings,
              parameters := [("stop", .arr [(jsIndexBy tokens eosId).getD ""])] }
    else
      .ok { settings := newSettings,
            parameters := [("stop", getProp defaultModel.parameters "stop")] }

/-- Lexicographic comparison of code-unit lists, the order in which
the default `Array.prototype.sort` arranges a directory listing. -/
def lexLe : List Char → List Char → Bool
  | [], _ => true
  | _ :: _, [] => false
  | a :: as, b :: bs =>
    if a < b then true else if a = b then lexLe as bs else false

/-- Lexicographic comparison of two strings by their character data. -/
def strLeB (a b : String) : Bool :=
  lexLe a.data b.data

/-- `strLeB` as a relation, for use with `List.insertionSort`. -/
def strLeRel (a b : String) : Prop :=
  strLeB a b = true

instance : DecidableRel strLeRel :=
  fun a b => instDecidableEqBool (strLeB a b) true

/-- JavaScript `String.prototype.endsWith`: a data-level suffix test. -/
def strEndsWith (s sfx : String) : Bool :=
  sfx.data.isSuffixOf s.data

/-- A directory entry as observed through `readdirSync` + `fileStat`:
name, whether it is a directory, and its byte size. -/
structure DirEntry where
  name : String
  isDirectory : Bool
  size : Nat
deriving DecidableEq, Repr

/-- An entry eligible as the model binary of a folder: carries the
supported ".gguf" suffix and is not itself a directory. -/
def isBinaryEntry (e : DirEntry) : Bool :=
  strEndsWith e.name ".gguf" && !e.isDirectory

/-- The body of the binary-selection loop: a ".gguf"-suffixed name is
stat-ed and skipped when it is a directory. -/
def binaryLookup (entries : List DirEntry) (n : String) : Option DirEntry :=
  if strEndsWith n ".gguf" then
    match entries.find? (fun e => e.name == n) with
    | some e => if e.isDirectory then none else some e
    | none => none
  else none

/-- The binary-selection loop of `generateModelMetadata`: sort the
directory listing by name, then walk it and take the first
".gguf"-suffixed name whose stat is not a directory. -/
def findBinary (entries : List DirEntry) : Option DirEntry :=
  (List.insertionSort strLeRel (entries.map (·.name))).findSome?
    (binaryLookup entries)

/-- A whole-file JSON write of a serialized descriptor, identified by
the model folder and the file name inside it. -/
structure FileWrite where
  folder : String
  file : String
  content : Model
deriving DecidableEq, Repr

/-- `JanModelExtension.generateModelMetadata` (descriptor synthesis for
a folder holding binaries but no `model.json`).  `entries` is the
folder listing; `ggufMeta?` is the outcome of the external
`retrieveGGUFMetadata` main-process call whose failure was caught to
`undefined`; `defaultModel` stands for the module constant
`DEFAULT_MODEL` (a bundled, always-present object, so the dead falsy
guard on it is dropped); `now` is `Date.now()`.  Returns `none` for
the warn-and-return path when no eligible binary exists, otherwise the
synthesized descriptor together with its persisting write. -/
def generateModelMetadata (dirName : String) (entries : List DirEntry)
    (defaultModel : Model) (ggufMeta? : Option Obj) (template? : Option String)
    (now : Nat) : Except JsError (Option (Model × FileWrite)) :=
  match findBinary entries with
  | none => .ok none
  | some e =>
    match retrieveGGUFMetadata ggufMeta? defaultModel template? with
    | .error er => .error er
    | .ok upd =>
      let m : Model :=
        { defaultModel with
          id := dirName
          name := dirName
          sources := [{ url := e.name, filename := some e.name }]
          parameters := mergeObj defaultModel.parameters upd.parameters
          settings := mergeObj (mergeObj defaultModel.settings upd.settings)
              [("llama_model_path", .str e.name)]
          created := now
          description := ""
          metadata := [("size", .num e.size), ("author", .str "User"), ("tags", .arr [])] }
      .ok (some (m, { folder := dirName, file := "model.json", content := m }))

/-- A `Partial ModelFile` argument of `updateModelInfo`: scalar fields
are optional, the nested objects default to the empty spread. -/
structure ModelPatch where
  id : Option String
  name : Option String
  sources : Option (List Source)
  engine : Option String
  description : Option String
  created : Option Nat
  settings : Obj
  parameters : Obj
  metadata : Obj
  file_path : Option String
  file_name : Option String
deriving DecidableEq, Repr

/-- A filesystem access performed by `updateModelInfo`, in order. -/
inductive FsOp where
  | readFile (path : Option String)
  | writeFile (path : Option String) (content : Model)
deriving DecidableEq, Repr

/-- The update-object construction of `updateModelInfo`: spread the
stored model, spread the patch over it, then rebuild `parameters`,
`settings` and `metadata` as one-level spreads of old under new, and
finally force `file_path` and `file_name` to `undefined` so they are
not persisted. -/
def applyPatch (model : Model) (p : ModelPatch) : Model :=
  { id := p.id.getD model.id
    name := p.name.getD model.name
    sources := p.sources.getD model.sources
    engine := p.engine.getD model.engine
    description := p.description.getD model.description
    created := p.created.getD model.created
    parameters := mergeObj model.parameters p.parameters
    settings := mergeObj model.settings p.settings
    metadata := mergeObj model.metadata p.metadata
    file_path := none
    file_name := none }

/-- `JanModelExtension.updateModelInfo`.  `disk?` is the parse result
of reading the descriptor at `patch.file_path` (`none` when that read
or parse would fail).  Returns the operation outcome together with the
trace of file accesses it performed. -/
def updateModelInfo (disk? : Option Model) (patch : ModelPatch) :
    Except JsError Model × List FsOp :=
  match patch.id with
  | none => (.error (.jsThrow "Model ID is required"), [])
  | some _ =>
    match disk? with
    | none => (.error (.jsThrow "cannot read model descriptor"), [.readFile patch.file_path])
    | some disk =>
      let updated := applyPatch disk patch
      (.ok updated, [.readFile patch.file_path, .writeFile patch.file_path updated])

/-- The observable outcome of one `importModel` call: its returned or
thrown result, whether the 1-second copy-progress interval was ever
started, and whether `clearInterval` was reached. -/
structure ImportRun where
  result : Except JsError Model
  timerStarted : Bool
  timerCleared : Bool
deriving Repr

/-- `JanModelExtension.importModel`, with the awaited outcomes of its
effectful steps supplied in source order: `symlinkRun` is the result
of `importModelSymlink` (taken before any timer exists), `srcStat` the
`fileStat` of the source binary, `copyRun` the `fs.copyFile` of the
source into the allocated folder, and `genRun` the final
`generateModelMetadata` call.  The interval is started right before
the copy; `clearInterval` is the statement following the awaited copy,
so it is reached only when the copy resolves. -/
def importModel (optionType : String) (symlinkRun : Except JsError Model)
    (srcStat : Except JsError Nat) (copyRun : Except JsError Unit)
    (genRun : Except JsError Model) : ImportRun :=
  if optionType = "SYMLINK" then
    { result := symlinkRun, timerStarted := false, timerCleared := false }
  else
    match srcStat with
    | .error e => { result := .error e, timerStarted := false, timerCleared := false }
    | .ok _ =>
      match copyRun with
      | .error e => { result := .error e, timerStarted := true, timerCleared := false }
      | .ok _ => { result := genRun, timerStarted := true, timerCleared := true }

/-- An entry of the `importModels` batch argument. -/
structure ImportItem where
  importId : String
  path : String
deriving DecidableEq, Repr

/-- An event emitted during a batch import. -/
inductive ImportEvent where
  | update (item : ImportItem)
  | success (item : ImportItem) (modelId : String)
  | failed (item : ImportItem) (err : JsError)
  | finished (imported : List Model)
deriving DecidableEq, Repr

/-- The loop body of `importModels`, carrying the accumulated list of
successfully imported descriptors. -/
def importModelsGo (importOne : ImportItem → Except JsError Model) :
    List ImportItem → List Model → List ImportEvent
  | [], imported => [.finished imported]
  | item :: rest, imported =>
    .update item ::
      match importOne item with
      | .ok m => .success item m.id :: importModelsGo importOne rest (imported ++ [m])
      | .error e => .failed item e :: importModelsGo importOne rest imported

/-- `JanModelExtension.importModels`: sequential per-item import with
an update event before each item, a success or failure event after it,
and one final finished event carrying the accumulated successes.  The
per-item `importModel` call is abstracted by `importOne`. -/
def importModels (importOne : ImportItem → Except JsError Model)
    (items : List ImportItem) : List ImportEvent :=
  importModelsGo importOne items []

/-- One remote progress response, as parsed from the poll endpoint. -/
structure PollResponse where
  downloadState : String
  modelId : String
deriving DecidableEq, Repr

/-- An event emitted by the polling loop. -/
inductive PollEvent where
  | success (s : PollResponse)
  | fileError (s : PollResponse)
  | update (s : PollResponse)
deriving DecidableEq, Repr

/-- The per-tick event mapping of `startPollingDownloadProgress`. -/
def tickEvent (s : PollResponse) : PollEvent :=
  if s.downloadState = "end" then .success s
  else if s.downloadState = "error" then .fileError s
  else .update s

/-- A response on which the loop clears its interval and resolves. -/
def isTerminal (s : PollResponse) : Bool :=
  s.downloadState = "end" || s.downloadState = "error"

/-- The polling loop observed for a bounded number of ticks, starting
at tick `i`: the list of emitted events and whether the promise was
resolved (interval cleared) within those ticks.  `resp` gives the
response observed at each tick. -/
def pollFrom (resp : Nat → PollResponse) : Nat → Nat → List PollEvent × Bool
  | _, 0 => ([], false)
  | i, fuel + 1 =>
    let s := resp i
    if isTerminal s then ([tickEvent s], true)
    else
      let rest := pollFrom resp (i + 1) fuel
      (tickEvent s :: rest.1, rest.2)

/-- `JanModelExtension.startPollingDownloadProgress`, observed for the
first `fuel` ticks of its 1-second interval. -/
def startPollingDownloadProgress (resp : Nat → PollResponse) (fuel : Nat) :
    List PollEvent × Bool :=
  pollFrom resp 0 fuel

/-- The slice of `RouteConfiguration` read by `deleteBuilder`
(`deleteObject` flattens the nested `delete.object` field). -/
structure RouteConfiguration where
  dirName : String
  metadataFileName : String
  deleteObject : String
deriving DecidableEq, Repr

/-- `retrieveBuilder` over the parsed registry returned by
`getBuilder`: the first descriptor whose `id` field equals `id`. -/
def retrieveBuilder (registry : List Obj) (id : String) : Option Obj :=
  (registry.filter (fun d => getProp d "id" == .str id))[0]?

/-- The value returned by `deleteBuilder`. -/
inductive DeleteOutcome where
  | message (msg : String)
  | deleted (id : String) (object : String)
deriving DecidableEq, Repr

/-- `deleteBuilder`, with the parsed registry of the configured
directory supplied as `registry`.  Returns the outcome and the list of
recursively removed paths (relative to the Jan data folder). -/
def deleteBuilder (config : RouteConfiguration) (registry : List Obj)
    (id : String) : DeleteOutcome × List String :=
  if config.dirName = "assistants" ∧ id = "jan" then
    (.message "Cannot delete Jan assistant", [])
  else
    match retrieveBuilder registry id with
    | none => (.message "Not found", [])
    | some _ => (.deleted id config.deleteObject, [config.dirName ++ "/" ++ id])

/-- One candidate folder name probed by `getModelFolderName`: the
desired name while `count` is absent or zero (both falsy), otherwise
the name with the hyphenated decimal counter appended. -/
def folderCandidate (name : String) (count : Option Nat) : String :=
  match count with
  | none => name
  | some c => if c = 0 then name else name ++ "-" ++ toString c

/-- The full probed path under the models root. -/
def modelFolderPath (root name : String) : String :=
  root ++ "/models/" ++ name

/-- The k-th candidate of the probe sequence: the desired name, then
name-1, name-2, and so on. -/
def seqCandidate (name : String) (k : Nat) : String :=
  if k = 0 then name else name ++ "-" ++ toString k

/-- The recursion of `JanModelExtension.getModelFolderName`, probing
candidates against the set of existing folder paths.  The source
recursion has no explicit bound; it terminates on a real filesystem
because only finitely many folders exist, so the embedding carries an
explicit probe allowance (`fuel`) and it is proved below that
`existing.length + 2` probes always reach a free candidate. -/
def getModelFolderNameAux (existing : List String) (root name : String) :
    Option Nat → Nat → Option String
  | _, 0 => none
  | count, fuel + 1 =>
    let path := modelFolderPath root (folderCandidate name count)
    if path ∈ existing then
      getModelFolderNameAux existing root name (some (count.getD 0 + 1)) fuel
    else some path

/-- `JanModelExtension.getModelFolderName` (the folder allocator):
probe root/name, then root/name-1, root/name-2, ... until a path names
no existing folder. -/
def getModelFolderName (existing : List String) (root name : String) :
    Option String :=
  getModelFolderNameAux existing root name none (existing.length + 2)

/-- The probe sequence of the allocator in index form: probe the k-th
candidate, then the (k+1)-th, within the given probe allowance.  The
`count` state of `getModelFolderNameAux` advances exactly along this
sequence. -/
def probeSeq (existing : List String) (root name : String) : Nat → Nat → Option String
  | _, 0 => none
  | k, fuel + 1 =>
    let path := modelFolderPath root (seqCandidate name k)
    if path ∈ existing then probeSeq existing root name (k + 1) fuel
    else some path

/-- Decimal digit list of a natural number, most significant digit
first; reference implementation used to reason about `Nat.repr`. -/
def decDigits (n : Nat) : List Char :=
  if _h : n < 10 then [Nat.digitChar n]
  else decDigits (n / 10) ++ [Nat.digitChar (n % 10)]
decreasing_by exact Nat.div_lt_self (by omega) (by omega)

/-- Decimal decoding of a digit-character list, used to invert
`decDigits`. -/
def decodeDigits (l : List Char) : Nat :=
  l.foldl (fun a c => 10 * a + (c.toNat - 48)) 0

/-- A concrete default descriptor standing in for `DEFAULT_MODEL`. -/
def defaultModel0 : Model :=
  { id := "default-model"
    name := "Default"
    sources := []
    engine := "nitro"
    description := "A default model"
    created := 0
    settings := [("prompt_template", .str "[INST]"), ("ctx_len", .num 2048)]
    parameters := [("stop", .arr ["</s>"]), ("temperature", .num 1)]
    metadata := [("author", .str "Jan"), ("tags", .arr [])]
    file_path := none
    file_name := none }

/-- Header metadata declaring only a llama block count of 32. -/
def mdBlock32 : Obj := [("llama.block_count", .num 32)]

/-- Header metadata declaring an end-of-sequence id but no token
table. -/
def mdNoTokens : Obj := [("tokenizer.ggml.eos_token_id", .num 2)]

/-- A folder listing with one eligible binary. -/
def entries0 : List DirEntry :=
  [{ name := "model.gguf", isDirectory := false, size := 7 }]

/-- A folder listing mixing directories, other files and two eligible
binaries, out of order. -/
def entries1 : List DirEntry :=
  [{ name := "b.gguf", isDirectory := false, size := 10 },
   { name := "a-dir.gguf", isDirectory := true, size := 0 },
   { name := "a.txt", isDirectory := false, size := 3 },
   { name := "aa.gguf", isDirectory := false, size := 5 }]

/-- A stored descriptor with two settings keys and transient fields. -/
def disk0 : Model :=
  { defaultModel0 with
    settings := [("ctx_len", .num 4096), ("prompt_template", .str "chatml")]
    file_path := some "/m/model.json"
    file_name := some "model.json" }

/-- An update patch touching only `settings.ctx_len`. -/
def patch0 : ModelPatch :=
  { id := some "m1"
    name := none
    sources := none
    engine := none
    description := none
    created := none
    settings := [("ctx_len", .num 8192)]
    parameters := []
    metadata := []
    file_path := some "/m/model.json"
    file_name := none }

/-- The same patch with its `id` absent. -/
def patchNoId : ModelPatch :=
  { patch0 with id := none }

/-- A remote progress trace: two downloading responses, then `end`. -/
def resp0 : Nat → PollResponse := fun i =>
  if i < 2 then { downloadState := "downloading", modelId := "m1" }
  else { downloadState := "end", modelId := "m1" }

/-- The assistants route configuration slice. -/
def cfgAssistants : RouteConfiguration :=
  { dirName := "assistants", metadataFileName := "assistant.json",
    deleteObject := "assistant" }

/-- A parsed assistants registry holding `jan` and `alice`. -/
def registry0 : List Obj :=
  [[("id", .str "jan")], [("id", .str "alice")]]

/-- A models root already containing `foo` and `foo-1`. -/
def existingFoo : List String :=
  ["/data/models/foo", "/data/models/foo-1"]

/-- Three batch-import items. -/
def importItems0 : List ImportItem :=
  [{ importId := "i1", path := "/a/one.gguf" },
   { importId := "i2", path := "/a/two.gguf" },
   { importId := "i3", path := "/a/three.gguf" }]

/-- A per-item import outcome whose second item is unreadable. -/
def importOne0 : ImportItem → Except JsError Model := fun it =>
  if it.importId = "i2" then .error (.jsThrow "unreadable path")
  else .ok { defaultModel0 with id := it.importId }

/-- The successful extraction outcome on `mdBlock32`. -/
def pmBlock32 : GGUFUpdate :=
  { settings :=
      [("prompt_template", .str "[INST]"), ("ctx_len", .num 4096),
       ("ngl", .num 33)],
    parameters := [("stop", .arr ["</s>"])] }

/-- The synthesized descriptor and its write on `entries1`. -/
def genPair1 : Model × FileWrite :=
  match generateModelMetadata "tiny" entries1 defaultModel0 (some []) none 0 with
  | .ok (some p) => p
  | _ => (defaultModel0, { folder := "", file := "", content := defaultModel0 })

theorem objEntry_append_some (a b : Obj) (k : String) (v : JsVal)
    (h : objEntry a k = some v) : objEntry (a ++ b) k = some v := by
  induction a with
  | nil => simp [objEntry] at h
  | cons e rest ih =>
    by_cases he : e.1 = k
    · simp only [objEntry, he, if_pos] at h ⊢
      simpa using h
    · simp only [objEntry, he, if_neg, List.cons_append, not_false_iff] at h ⊢
      exact ih h

theorem objEntry_append_none (a b : Obj) (k : String)
    (h : objEntry a k = none) : objEntry (a ++ b) k = objEntry b k := by
  induction a with
  | nil => simp [objEntry]
  | cons e rest ih =>
    by_cases he : e.1 = k
    · simp [objEntry, he] at h
    · simp only [objEntry, he, if_neg, List.cons_append, not_false_iff] at h ⊢
      exact ih h

theorem objEntry_keyMap (a : Obj) (f : String → JsVal → JsVal) (k : String) :
    objEntry (a.map (fun e => (e.1, f e.1 e.2))) k = (objEntry a k).map (f k) := by
  induction a with
  | nil => simp [objEntry]
  | cons e rest ih =>
    by_cases he : e.1 = k
    · subst he
      simp [objEntry, ih]
    · simp [objEntry, he, ih]

theorem objEntry_keyFilter (b : Obj) (p : String → Bool) (k : String) :
    objEntry (b.filter (fun e => p e.1)) k =
      if p k then objEntry b k else none := by
  induction b with
  | nil => simp [objEntry]
  | cons e rest ih =>
    by_cases he : e.1 = k
    · subst he
      by_cases hp : p e.1 <;> simp [objEntry, hp, ih]
    · by_cases hp : p e.1 <;> simp [objEntry, he, hp, ih]

/-- Spread semantics of the one-level merge: a key bound by the update
takes the updated value, any other key keeps the base value. -/
theorem getProp_mergeObj (a b : Obj) (k : String) :
    getProp (mergeObj a b) k =
      match objEntry b k with
      | some v => v
      | none => getProp a k := by
  unfold mergeObj
  cases hA : objEntry a k with
  | some v =>
    have hm :
        objEntry (a.map (fun e => (e.1, (objEntry b e.1).getD e.2))) k =
          some ((objEntry b k).getD v) := by
      rw [objEntry_keyMap a (fun k' v' => (objEntry b k').getD v') k, hA]
      rfl
    rw [getProp, objEntry_append_some _ _ _ _ hm]
    cases hB : objEntry b k <;> simp [hB, getProp, hA, Option.getD]
  | none =>
    have hm :
        objEntry (a.map (fun e => (e.1, (objEntry b e.1).getD e.2))) k = none := by
      rw [objEntry_keyMap a (fun k' v' => (objEntry b k').getD v') k, hA]
      rfl
    rw [getProp, objEntry_append_none _ _ _ hm,
      objEntry_keyFilter b (fun k' => (objEntry a k').isNone) k]
    simp only [hA, Option.isNone_none, if_pos]
    cases hB : objEntry b k <;> simp [hB, getProp, hA]

/-- The `settings` object of every successful `retrieveGGUFMetadata`
call, in terms of the metadata entries it reads. -/
theorem retrieveGGUFMetadata_ok_settings (md : Obj) (d : Model) (t : Option String)
    (pm : GGUFUpdate) (h : retrieveGGUFMetadata (some md) d t = .ok pm) :
    pm.settings =
      [("prompt_template",
          (t.map JsVal.str).getD (getProp d.settings "prompt_template")),
       ("ctx_len",
          jsCoalesce (getProp md (archName md ++ ".context_length"))
            (jsCoalesce (getProp md "llama.context_length") (.num 4096))),
       ("ngl",
          jsAddOne
            (jsCoalesce (getProp md (archName md ++ ".block_count"))
              (jsCoalesce (getProp md "llama.block_count") (.num 32))))] := by
  simp only [retrieveGGUFMetadata] at h
  split at h
  · split at h
    · exact absurd h (by simp)
    all_goals
      injection h with h
      subst h
      rfl
  · injection h with h
    subst h
    rfl

/-- With a falsy end-of-sequence id the call succeeds and the stop
list is taken from the default descriptor. -/
theorem retrieveGGUFMetadata_stop_default (md : Obj) (d : Model) (t : Option String)
    (hf : jsTruthy (getProp md "tokenizer.ggml.eos_token_id") = false) :
    retrieveGGUFMetadata (some md) d t =
      .ok { settings :=
              [("prompt_template",
                  (t.map JsVal.str).getD (getProp d.settings "prompt_template")),
               ("ctx_len",
                  jsCoalesce (getProp md (archName md ++ ".context_length"))
                    (jsCoalesce (getProp md "llama.context_length") (.num 4096))),
               ("ngl",
                  jsAddOne
                    (jsCoalesce (getProp md (archName md ++ ".block_count"))
                      (jsCoalesce (getProp md "llama.block_count") (.num 32))))],
            parameters := [("stop", getProp d.parameters "stop")] } := by
  simp [retrieveGGUFMetadata, hf]

/-- With a truthy end-of-sequence id and an absent token table the
call throws a `TypeError`. -/
theorem retrieveGGUFMetadata_stop_throw (md : Obj) (d : Model) (t : Option String)
    (ht : jsTruthy (getProp md "tokenizer.ggml.eos_token_id") = true)
    (hu : getProp md "tokenizer.ggml.tokens" = .undefined) :
    retrieveGGUFMetadata (some md) d t = .error .typeError := by
  simp [retrieveGGUFMetadata, ht, hu]

/-- With a truthy end-of-sequence id and a present token table the
call succeeds and the stop list is the singleton obtained by
subscripting the table with the id (empty string on a miss). -/
theorem retrieveGGUFMetadata_stop_index (md : Obj) (d : Model) (t : Option String)
    (tv : JsVal)
    (ht : jsTruthy (getProp md "tokenizer.ggml.eos_token_id") = true)
    (htv : getProp md "tokenizer.ggml.tokens" = tv) (hne : tv ≠ .undefined) :
    retrieveGGUFMetadata (some md) d t =
      .ok { settings :=
              [("prompt_template",
                  (t.map JsVal.str).getD (getProp d.settings "prompt_template")),
               ("ctx_len",
                  jsCoalesce (getProp md (archName md ++ ".context_length"))
                    (jsCoalesce (getProp md "llama.context_length") (.num 4096))),
               ("ngl",
                  jsAddOne
                    (jsCoalesce (getProp md (archName md ++ ".block_count"))
                      (jsCoalesce (getProp md "llama.block_count") (.num 32))))],
            parameters :=
              [("stop",
                  .arr [(jsIndexBy tv
                      (getProp md "tokenizer.ggml.eos_token_id")).getD ""])] } := by
  simp only [retrieveGGUFMetadata, ht, if_true, htv]


/-- C3: for every header-metadata object on which `retrieveGGUFMetadata`
returns, the computed `settings.ctx_len` is the architecture-qualified
context-length entry when present, else the fixed `llama.context_length`
entry, else 4096; and `settings.ngl` is the architecture-qualified
block-count entry when present, else `llama.block_count`, else 32, plus
one — in particular a block count of 32 yields ngl 33. -/
theorem retrieveGGUFMetadata_ctx_len_ngl (md : Obj) (d : Model) (t : Option String)
    (pm : GGUFUpdate) (h : retrieveGGUFMetadata (some md) d t = .ok pm) :
    (∀ v, getProp md (archName md ++ ".context_length") = v → v ≠ .undefined →
        getProp pm.settings "ctx_len" = v) ∧
    (getProp md (archName md ++ ".context_length") = .undefined →
      ∀ v, getProp md "llama.context_length" = v → v ≠ .undefined →
        getProp pm.settings "ctx_len" = v) ∧
    (getProp md (archName md ++ ".context_length") = .undefined →
      getProp md "llama.context_length" = .undefined →
        getProp pm.settings "ctx_len" = .num 4096) ∧
    (∀ n, getProp md (archName md ++ ".block_count") = .num n →
        getProp pm.settings "ngl" = .num (n + 1)) ∧
    (getProp md (archName md ++ ".block_count") = .undefined →
      ∀ n, getProp md "llama.block_count" = .num n →
        getProp pm.settings "ngl" = .num (n + 1)) ∧
    (getProp md (archName md ++ ".block_count") = .undefined →
      getProp md "llama.block_count" = .undefined →
        getProp pm.settings "ngl" = .num 33) := by
  have hs := retrieveGGUFMetadata_ok_settings md d t pm h
  have hctx : getProp pm.settings "ctx_len" =
      jsCoalesce (getProp md (archName md ++ ".context_length"))
        (jsCoalesce (getProp md "llama.context_length") (.num 4096)) := by
    rw [hs]; rfl
  have hngl : getProp pm.settings "ngl" =
      jsAddOne
        (jsCoalesce (getProp md (archName md ++ ".block_count"))
          (jsCoalesce (getProp md "llama.block_count") (.num 32))) := by
    rw [hs]; rfl
  refine ⟨?_, ?_, ?_, ?_, ?_, ?_⟩
  · intro v hv hne
    rw [hctx, hv]
    simp [jsCoalesce, hne]
  · intro h1 v hv hne
    rw [hctx, h1, hv]
    simp [jsCoalesce, hne]
  · intro h1 h2
    rw [hctx, h1, h2]
    rfl
  · intro n hv
    rw [hngl, hv]
    rfl
  · intro h1 n hv
    rw [hngl, h1, hv]
    rfl
  · intro h1 h2
    rw [hngl, h1, h2]
    rfl

/-- Witness for C3: metadata reporting a block count of 32 yields an
`ngl` of 33. -/
theorem retrieveGGUFMetadata_ctx_len_ngl_witness :
    retrieveGGUFMetadata (some mdBlock32) defaultModel0 none = .ok pmBlock32 ∧
    getProp pmBlock32.settings "ngl" = .num 33 := by
  have h : retrieveGGUFMetadata (some mdBlock32) defaultModel0 none = .ok pmBlock32 := by
    rfl
  exact ⟨h,
    (retrieveGGUFMetadata_ctx_len_ngl mdBlock32 defaultModel0 none pmBlock32 h).2.2.2.2.1
      (by rfl) 32 (by rfl)⟩

/-- C2 counterexample: header metadata declaring a (nonzero)
end-of-sequence id but no token table makes `retrieveGGUFMetadata`
throw a `TypeError` instead of falling back to the default stop
list. -/
theorem retrieveGGUFMetadata_throws_on_missing_table :
    retrieveGGUFMetadata (some mdNoTokens) defaultModel0 none = .error .typeError ∧
    (retrieveGGUFMetadata (some mdNoTokens) defaultModel0 none).isOk = false := by
  exact ⟨rfl, rfl⟩

/-- C2 amended: the stop token is resolved by subscripting the token
table with the end-of-sequence id whenever the id is truthy (present
and nonzero) and the table is present; when the id is falsy (absent or
zero) the stop list falls back to the default descriptor and the call
succeeds; but when the id is truthy and the token table is absent the
call throws a `TypeError`. -/
theorem retrieveGGUFMetadata_stop_resolution (md : Obj) (d : Model)
    (t : Option String) :
    (jsTruthy (getProp md "tokenizer.ggml.eos_token_id") = false →
      (retrieveGGUFMetadata (some md) d t).isOk = true) ∧
    (jsTruthy (getProp md "tokenizer.ggml.eos_token_id") = false →
      ∀ pm, retrieveGGUFMetadata (some md) d t = .ok pm →
        getProp pm.parameters "stop" = getProp d.parameters "stop") ∧
    (jsTruthy (getProp md "tokenizer.ggml.eos_token_id") = true →
      getProp md "tokenizer.ggml.tokens" = .undefined →
        retrieveGGUFMetadata (some md) d t = .error .typeError) ∧
    (jsTruthy (getProp md "tokenizer.ggml.eos_token_id") = true →
      ∀ tv, getProp md "tokenizer.ggml.tokens" = tv → tv ≠ .undefined →
        (retrieveGGUFMetadata (some md) d t).isOk = true) ∧
    (jsTruthy (getProp md "tokenizer.ggml.eos_token_id") = true →
      ∀ tv, getProp md "tokenizer.ggml.tokens" = tv → tv ≠ .undefined →
        ∀ pm, retrieveGGUFMetadata (some md) d t = .ok pm →
          getProp pm.parameters "stop" =
            .arr [(jsIndexBy tv
                (getProp md "tokenizer.ggml.eos_token_id")).getD ""]) := by
  refine ⟨?_, ?_, ?_, ?_, ?_⟩
  · intro hf
    rw [retrieveGGUFMetadata_stop_default md d t hf]
    rfl
  · intro hf pm h
    rw [retrieveGGUFMetadata_stop_default md d t hf] at h
    injection h with h
    subst h
    rfl
  · intro ht hu
    exact retrieveGGUFMetadata_stop_throw md d t ht hu
  · intro ht tv htv hne
    rw [retrieveGGUFMetadata_stop_index md d t tv ht htv hne]
    rfl
  · intro ht tv htv hne pm h
    rw [retrieveGGUFMetadata_stop_index md d t tv ht htv hne] at h
    injection h with h
    subst h
    rfl

/-- Witness for the amended C2: on metadata without an end-of-sequence
id the call succeeds and the stop list is the default one. -/
theorem retrieveGGUFMetadata_stop_resolution_witness :
    (retrieveGGUFMetadata (some mdBlock32) defaultModel0 none).isOk = true ∧
    getProp pmBlock32.parameters "stop" = .arr ["</s>"] := by
  have H := retrieveGGUFMetadata_stop_resolution mdBlock32 defaultModel0 none
  exact ⟨H.1 (by rfl),
    (H.2.1 (by rfl) pmBlock32 (by rfl)).trans (by rfl)⟩

/-- C7: `updateModelInfo` merges the nested `settings`, `parameters`
and `metadata` objects key by key — a key absent from the patch keeps
the stored value — and both the returned and the persisted descriptor
carry no transient `file_path` or `file_name` field. -/
theorem updateModelInfo_deep_merges (disk : Model) (patch : ModelPatch) (m : Model)
    (h : (updateModelInfo (some disk) patch).1 = .ok m) :
    (∀ k, getProp m.settings k =
        match objEntry patch.settings k with
        | some v => v
        | none => getProp disk.settings k) ∧
    (∀ k, getProp m.parameters k =
        match objEntry patch.parameters k with
        | some v => v
        | none => getProp disk.parameters k) ∧
    (∀ k, getProp m.metadata k =
        match objEntry patch.metadata k with
        | some v => v
        | none => getProp disk.metadata k) ∧
    m.file_path = none ∧ m.file_name = none ∧
    (∀ p c, FsOp.writeFile p c ∈ (updateModelInfo (some disk) patch).2 →
      c.file_path = none ∧ c.file_name = none) := by
  cases hid : patch.id with
  | none => simp [updateModelInfo, hid] at h
  | some i =>
    have hm : m = applyPatch disk patch := by
      simp only [updateModelInfo, hid] at h
      injection h with h
      exact h.symm
    subst hm
    refine ⟨?_, ?_, ?_, rfl, rfl, ?_⟩
    · intro k
      exact getProp_mergeObj disk.settings patch.settings k
    · intro k
      exact getProp_mergeObj disk.parameters patch.parameters k
    · intro k
      exact getProp_mergeObj disk.metadata patch.metadata k
    · intro p c hc
      simp only [updateModelInfo, hid, List.mem_cons, List.mem_singleton] at hc
      rcases hc with hc | hc | hc
      · exact absurd hc (by simp)
      · injection hc with h1 h2
        subst h2
        exact ⟨rfl, rfl⟩
      · exact absurd hc (by simp at hc)

/-- Witness for C7: patching only `settings.ctx_len` updates it while
preserving the other settings key, and strips the transient fields. -/
theorem updateModelInfo_deep_merges_witness :
    (updateModelInfo (some disk0) patch0).1 = .ok (applyPatch disk0 patch0) ∧
    getProp (applyPatch disk0 patch0).settings "ctx_len" = .num 8192 ∧
    getProp (applyPatch disk0 patch0).settings "prompt_template" = .str "chatml" ∧
    (applyPatch disk0 patch0).file_path = none := by
  have h : (updateModelInfo (some disk0) patch0).1 = .ok (applyPatch disk0 patch0) := rfl
  have H := updateModelInfo_deep_merges disk0 patch0 (applyPatch disk0 patch0) h
  exact ⟨h, (H.1 "ctx_len").trans (by rfl),
    (H.1 "prompt_template").trans (by rfl), H.2.2.2.1⟩

/-- C10: a patch whose `id` is null or undefined makes
`updateModelInfo` throw "Model ID is required" before any file access,
so the on-disk descriptor is unchanged. -/
theorem updateModelInfo_requires_id (disk? : Option Model) (patch : ModelPatch)
    (h : patch.id = none) :
    updateModelInfo disk? patch =
      (.error (.jsThrow "Model ID is required"), []) := by
  simp [updateModelInfo, h]

/-- Witness for C10. -/
theorem updateModelInfo_requires_id_witness :
    updateModelInfo (some disk0) patchNoId =
      (.error (.jsThrow "Model ID is required"), []) :=
  updateModelInfo_requires_id (some disk0) patchNoId rfl

/-- C9: `deleteBuilder` rejects deleting the reserved `jan` identity of
the assistants registry with a message and performs no filesystem
removal, while any other id present in the registry is deleted with
its folder removed recursively. -/
theorem deleteBuilder_protected (config : RouteConfiguration)
    (registry : List Obj) (id : String) :
    (config.dirName = "assistants" → id = "jan" →
      deleteBuilder config registry id =
        (.message "Cannot delete Jan assistant", [])) ∧
    (¬(config.dirName = "assistants" ∧ id = "jan") →
      ∀ d, retrieveBuilder registry id = some d →
        deleteBuilder config registry id =
          (.deleted id config.deleteObject, [config.dirName ++ "/" ++ id])) := by
  constructor
  · intro h1 h2
    simp [deleteBuilder, h1, h2]
  · intro hng d hd
    simp [deleteBuilder, hng, hd]

/-- Witness for C9: deleting `jan` is rejected without any removal,
deleting the existing `alice` proceeds and removes her folder. -/
theorem deleteBuilder_protected_witness :
    deleteBuilder cfgAssistants registry0 "jan" =
      (.message "Cannot delete Jan assistant", []) ∧
    deleteBuilder cfgAssistants registry0 "alice" =
      (.deleted "alice" "assistant", ["assistants/alice"]) := by
  have H1 := (deleteBuilder_protected cfgAssistants registry0 "jan").1 rfl rfl
  have H2 := (deleteBuilder_protected cfgAssistants registry0 "alice").2
    (by decide) [("id", .str "alice")] (by rfl)
  exact ⟨H1, H2.trans (by rfl)⟩

/-- C1: at the failing input — a copy-strategy import whose
`fs.copyFile` rejects — the 1-second progress interval is started but
`clearInterval` is never reached, so the timer keeps running after
`importModel` rejects; a resolving copy does clear it. -/
theorem importModel_timer_leak :
    (importModel "MOVE_BINARY_FILE" (.ok defaultModel0) (.ok 1024)
        (.error (.jsThrow "copy failed")) (.ok defaultModel0)).timerStarted = true ∧
    (importModel "MOVE_BINARY_FILE" (.ok defaultModel0) (.ok 1024)
        (.error (.jsThrow "copy failed")) (.ok defaultModel0)).timerCleared = false ∧
    (importModel "MOVE_BINARY_FILE" (.ok defaultModel0) (.ok 1024)
        (.error (.jsThrow "copy failed")) (.ok defaultModel0)).result =
      .error (.jsThrow "copy failed") ∧
    (importModel "MOVE_BINARY_FILE" (.ok defaultModel0) (.ok 1024)
        (.ok ()) (.ok defaultModel0)).timerCleared = true :=
  ⟨rfl, rfl, rfl, rfl⟩

/-- The full event trace of the `importModels` loop with an arbitrary
starting accumulator. -/
theorem importModelsGo_eq (f : ImportItem → Except JsError Model)
    (items : List ImportItem) :
    ∀ acc : List Model,
      importModelsGo f items acc =
        (items.flatMap (fun item =>
          ImportEvent.update item ::
            match f item with
            | .ok m => [ImportEvent.success item m.id]
            | .error e => [ImportEvent.failed item e])) ++
        [ImportEvent.finished
          (acc ++ items.filterMap (fun item => (f item).toOption))] := by
  induction items with
  | nil => intro acc; simp [importModelsGo]
  | cons item rest ih =>
    intro acc
    cases hf : f item with
    | ok m =>
      simp [importModelsGo, hf, ih, Except.toOption]
    | error e =>
      simp [importModelsGo, hf, ih, Except.toOption]

/-- C4: `importModels` processes the items sequentially in order; each
item contributes an update event then exactly one success or one
failure event; failures never stop the loop; and the trace ends with
exactly one finished event carrying precisely the successfully imported
descriptors — demonstrated also on three items whose second fails. -/
theorem importModels_event_protocol (f : ImportItem → Except JsError Model)
    (items : List ImportItem) :
    importModels f items =
      (items.flatMap (fun item =>
        ImportEvent.update item ::
          match f item with
          | .ok m => [ImportEvent.success item m.id]
          | .error e => [ImportEvent.failed item e])) ++
      [ImportEvent.finished
        (items.filterMap (fun item => (f item).toOption))] ∧
    importModels importOne0 importItems0 =
      [.update { importId := "i1", path := "/a/one.gguf" },
       .success { importId := "i1", path := "/a/one.gguf" } "i1",
       .update { importId := "i2", path := "/a/two.gguf" },
       .failed { importId := "i2", path := "/a/two.gguf" } (.jsThrow "unreadable path"),
       .update { importId := "i3", path := "/a/three.gguf" },
       .success { importId := "i3", path := "/a/three.gguf" } "i3",
       .finished [{ defaultModel0 with id := "i1" },
                  { defaultModel0 with id := "i3" }]] := by
  constructor
  · simpa [importModels] using importModelsGo_eq f items []
  · rfl

/-- The loop resolves within `fuel` ticks from `i` exactly when some
tick in that window observes a terminal response. -/
theorem pollFrom_stopped_iff (resp : Nat → PollResponse) :
    ∀ (fuel i : Nat),
      (pollFrom resp i fuel).2 = true ↔
        ∃ m, i ≤ m ∧ m < i + fuel ∧ isTerminal (resp m) = true := by
  intro fuel
  induction fuel with
  | zero =>
    intro i
    simp only [pollFrom]
    constructor
    · intro h
      exact absurd h (by simp)
    · rintro ⟨m, h1, h2, _⟩
      omega
  | succ n ih =>
    intro i
    by_cases ht : isTerminal (resp i) = true
    · simp only [pollFrom, ht, if_pos]
      exact iff_of_true (by simp) ⟨i, le_refl i, by omega, ht⟩
    · simp only [pollFrom, ht, if_neg, Bool.not_eq_true]
      rw [ih (i + 1)]
      constructor
      · rintro ⟨m, h1, h2, h3⟩
        exact ⟨m, by omega, by omega, h3⟩
      · rintro ⟨m, h1, h2, h3⟩
        refine ⟨m, ?_, by omega, h3⟩
        rcases Nat.eq_or_lt_of_le h1 with he | hl
        · exact absurd (he ▸ h3) (by simp [ht])
        · omega

/-- Every emitted event is the per-tick mapping of the response
observed at its tick. -/
theorem pollFrom_index (resp : Nat → PollResponse) :
    ∀ (fuel i j : Nat) (e : PollEvent),
      ((pollFrom resp i fuel).1)[j]? = some e → e = tickEvent (resp (i + j)) := by
  intro fuel
  induction fuel with
  | zero =>
    intro i j e h
    simp [pollFrom] at h
  | succ n ih =>
    intro i j e h
    by_cases ht : isTerminal (resp i) = true
    · simp only [pollFrom, ht, if_pos] at h
      cases j with
      | zero =>
        simp at h
        simp [← h]
      | succ j' => simp at h
    · simp only [pollFrom, ht, if_neg, Bool.not_eq_true] at h
      cases j with
      | zero =>
        simp at h
        simp [← h]
      | succ j' =>
        simp only [List.getElem?_cons_succ] at h
        have h2 := ih (i + 1) j' e h
        rw [h2]
        have h3 : i + 1 + j' = i + (j' + 1) := by omega
        rw [h3]

/-- With no terminal response in the window the loop emits one update
per tick and keeps running. -/
theorem pollFrom_no_terminal (resp : Nat → PollResponse) :
    ∀ (fuel i : Nat),
      (∀ m, i ≤ m → m < i + fuel → isTerminal (resp m) = false) →
      (pollFrom resp i fuel).1.length = fuel ∧ (pollFrom resp i fuel).2 = false := by
  intro fuel
  induction fuel with
  | zero =>
    intro i _
    simp [pollFrom]
  | succ n ih =>
    intro i hno
    have ht : isTerminal (resp i) = false := hno i (le_refl i) (by omega)
    have hrec := ih (i + 1) (fun m h1 h2 => hno m (by omega) (by omega))
    simp only [pollFrom, ht, Bool.false_eq_true, if_neg, not_false_iff]
    constructor
    · simp [hrec.1]
    · simp [hrec.2]

/-- When tick `k` observes the first terminal response, the loop emits
exactly the events of ticks `i..k` and resolves. -/
theorem pollFrom_first_terminal (resp : Nat → PollResponse) :
    ∀ (fuel i k : Nat), i ≤ k → k < i + fuel →
      (∀ m, i ≤ m → m < k → isTerminal (resp m) = false) →
      isTerminal (resp k) = true →
      (pollFrom resp i fuel).1.length = k + 1 - i ∧
      (pollFrom resp i fuel).2 = true := by
  intro fuel
  induction fuel with
  | zero =>
    intro i k h1 h2
    omega
  | succ n ih =>
    intro i k h1 h2 hno hk
    rcases Nat.eq_or_lt_of_le h1 with he | hl
    · subst he
      simp only [pollFrom, hk, if_pos]
      exact ⟨by simp, by simp⟩
    · have ht : isTerminal (resp i) = false := hno i (le_refl i) hl
      have hrec := ih (i + 1) k (by omega) (by omega)
        (fun m hm1 hm2 => hno m (by omega) hm2) hk
      simp only [pollFrom, ht, Bool.false_eq_true, if_neg, not_false_iff]
      constructor
      · simp [hrec.1]
        omega
      · simp [hrec.2]

/-- C8: each poll tick maps an `end` response to exactly one success
event, an `error` response to exactly one error event, and anything
else to an update event; the loop resolves and clears its interval
exactly when a terminal response is observed; it stops at the first
terminal tick having emitted one event per tick up to it; and with no
terminal response it keeps polling with no bound on the number of
attempts. -/
theorem startPollingDownloadProgress_protocol (resp : Nat → PollResponse)
    (fuel : Nat) :
    ((startPollingDownloadProgress resp fuel).2 = true ↔
      ∃ m, m < fuel ∧ isTerminal (resp m) = true) ∧
    (∀ j e, ((startPollingDownloadProgress resp fuel).1)[j]? = some e →
      ((resp j).downloadState = "end" → e = .success (resp j)) ∧
      ((resp j).downloadState = "error" → e = .fileError (resp j)) ∧
      ((resp j).downloadState ≠ "end" → (resp j).downloadState ≠ "error" →
        e = .update (resp j))) ∧
    ((∀ m, m < fuel → isTerminal (resp m) = false) →
      (startPollingDownloadProgress resp fuel).1.length = fuel ∧
      (startPollingDownloadProgress resp fuel).2 = false) ∧
    (∀ k, k < fuel → (∀ m, m < k → isTerminal (resp m) = false) →
      isTerminal (resp k) = true →
      (startPollingDownloadProgress resp fuel).1.length = k + 1 ∧
      (startPollingDownloadProgress resp fuel).2 = true) := by
  refine ⟨?_, ?_, ?_, ?_⟩
  · rw [startPollingDownloadProgress, pollFrom_stopped_iff resp fuel 0]
    constructor
    · rintro ⟨m, _, h2, h3⟩
      exact ⟨m, by omega, h3⟩
    · rintro ⟨m, h1, h2⟩
      exact ⟨m, by omega, by omega, h2⟩
  · intro j e h
    have he := pollFrom_index resp fuel 0 j e h
    simp only [Nat.zero_add] at he
    subst he
    refine ⟨?_, ?_, ?_⟩
    · intro hs
      simp [tickEvent, hs]
    · intro hs
      have hne : (resp j).downloadState ≠ "end" := by
        rw [hs]
        decide
      simp [tickEvent, hne, hs]
    · intro h1 h2
      simp [tickEvent, h1, h2]
  · intro hno
    have := pollFrom_no_terminal resp fuel 0 (fun m _ h2 => hno m (by omega))
    exact ⟨this.1, this.2⟩
  · intro k hk hno hterm
    have h := pollFrom_first_terminal resp fuel 0 k (by omega) (by omega)
      (fun m _ h2 => hno m h2) hterm
    refine ⟨?_, h.2⟩
    have he : k + 1 - 0 = k + 1 := by omega
    rw [← he]
    exact h.1

/-- Witness for C8: with two downloading responses followed by `end`,
five allowed ticks emit exactly three events and the loop resolves. -/
theorem startPollingDownloadProgress_protocol_witness :
    (startPollingDownloadProgress resp0 5).1.length = 3 ∧
    (startPollingDownloadProgress resp0 5).2 = true := by
  have H := (startPollingDownloadProgress_protocol resp0 5).2.2.2 2 (by omega)
    (fun m hm => by interval_cases m <;> rfl) (by rfl)
  exact ⟨H.1, H.2⟩

theorem lexLe_refl : ∀ as : List Char, lexLe as as = true
  | [] => rfl
  | a :: as => by simp [lexLe, lt_irrefl, lexLe_refl as]

theorem lexLe_total : ∀ as bs : List Char, lexLe as bs = true ∨ lexLe bs as = true := by
  intro as
  induction as with
  | nil =>
    intro bs
    left
    rfl
  | cons a as ih =>
    intro bs
    cases bs with
    | nil =>
      right
      rfl
    | cons b bs =>
      rcases lt_trichotomy a b with h | h | h
      · left
        simp [lexLe, h]
      · subst h
        rcases ih bs with h2 | h2
        · left
          simp [lexLe, lt_irrefl, h2]
        · right
          simp [lexLe, lt_irrefl, h2]
      · right
        simp [lexLe, h]

theorem lexLe_trans : ∀ as bs cs : List Char,
    lexLe as bs = true → lexLe bs cs = true → lexLe as cs = true := by
  intro as
  induction as with
  | nil =>
    intro bs cs _ _
    rfl
  | cons a as ih =>
    intro bs cs h1 h2
    cases bs with
    | nil => simp [lexLe] at h1
    | cons b bs =>
      cases cs with
      | nil => simp [lexLe] at h2
      | cons c cs =>
        rcases lt_trichotomy a b with hab | hab | hab
        · rcases lt_trichotomy b c with hbc | hbc | hbc
          · simp [lexLe, lt_trans hab hbc]
          · subst hbc
            simp [lexLe, hab]
          · simp [lexLe, lt_asymm hbc, ne_of_gt hbc] at h2
        · subst hab
          simp only [lexLe, lt_irrefl, if_false, if_pos rfl] at h1
          rcases lt_trichotomy a c with hac | hac | hac
          · simp [lexLe, hac]
          · subst hac
            simp only [lexLe, lt_irrefl, if_false, if_pos rfl] at h2 ⊢
            exact ih bs cs h1 h2
          · simp [lexLe, lt_asymm hac, ne_of_gt hac] at h2
        · simp [lexLe, lt_asymm hab, ne_of_gt hab] at h1

/-- A successful body lookup returns an eligible entry of the listing
carrying the looked-up name. -/
theorem binaryLookup_some (entries : List DirEntry) (n : String) (e : DirEntry)
    (h : binaryLookup entries n = some e) :
    e ∈ entries ∧ isBinaryEntry e = true ∧ e.name = n := by
  unfold binaryLookup at h
  by_cases hends : strEndsWith n ".gguf" = true
  · rw [if_pos hends] at h
    cases hf : entries.find? (fun x => x.name == n) with
    | none => rw [hf] at h; exact absurd h (by simp)
    | some a =>
      rw [hf] at h
      by_cases hd : a.isDirectory = true
      · simp [hd] at h
      · simp only [hd, Bool.false_eq_true, if_neg, not_false_iff] at h
        injection h with h
        subst h
        have hdf : a.isDirectory = false := by
          revert hd
          cases a.isDirectory <;> simp
        have hname : a.name = n := by
          have h2 := List.find?_some hf
          simpa using h2
        refine ⟨List.mem_of_find?_eq_some hf, ?_, hname⟩
        simp [isBinaryEntry, hname, hends, hdf]
  · rw [if_neg hends] at h
    exact absurd h (by simp)

/-- With duplicate-free names, every eligible entry is found by the
body lookup under its own name. -/
theorem binaryLookup_eligible (entries : List DirEntry)
    (hnd : (entries.map (fun e => e.name)).Nodup) (e : DirEntry)
    (he : e ∈ entries) (hb : isBinaryEntry e = true) :
    binaryLookup entries e.name = some e := by
  have hb' := hb
  unfold isBinaryEntry at hb'
  rw [Bool.and_eq_true] at hb'
  obtain ⟨hends, hdirb⟩ := hb'
  have hdir : e.isDirectory = false := by simpa using hdirb
  have hsome : (entries.find? (fun x => x.name == e.name)).isSome = true := by
    rw [List.find?_isSome]
    exact ⟨e, he, by simp⟩
  cases hf : entries.find? (fun x => x.name == e.name) with
  | none => rw [hf] at hsome; simp at hsome
  | some a =>
    have haname : a.name = e.name := by
      have := List.find?_some hf
      simpa using this
    have hae : a = e :=
      List.inj_on_of_nodup_map hnd (List.mem_of_find?_eq_some hf) he haname
    subst hae
    unfold binaryLookup
    rw [if_pos hends, hf]
    simp [hdir]

/-- The first hit of `findSome?` over a pairwise-ordered list is at a
position related to every other position that would also hit. -/
theorem findSome?_pairwise_first {α β : Type} (r : α → α → Prop)
    (g : α → Option β) :
    ∀ (l : List α), l.Pairwise r → ∀ b, l.findSome? g = some b →
      ∃ a, a ∈ l ∧ g a = some b ∧
        ∀ x ∈ l, (g x).isSome = true → a = x ∨ r a x := by
  intro l
  induction l with
  | nil =>
    intro _ b h
    simp at h
  | cons y ys ih =>
    intro hp b h
    rw [List.findSome?_cons] at h
    rcases List.pairwise_cons.mp hp with ⟨hy, hys⟩
    cases hg : g y with
    | some b' =>
      rw [hg] at h
      injection h with h
      subst h
      refine ⟨y, List.mem_cons_self y ys, hg, ?_⟩
      intro x hx _
      rcases List.mem_cons.mp hx with hx | hx
      · exact Or.inl hx.symm
      · exact Or.inr (hy x hx)
    | none =>
      rw [hg] at h
      rcases ih hys b h with ⟨a, ha, hga, hmin⟩
      refine ⟨a, List.mem_cons_of_mem y ha, hga, ?_⟩
      intro x hx hxs
      rcases List.mem_cons.mp hx with hx | hx
      · subst hx
        rw [hg] at hxs
        simp at hxs
      · exact hmin x hx hxs

/-- With no eligible binary in the folder, `findBinary` is `none`. -/
theorem findBinary_none (entries : List DirEntry)
    (hno : ∀ e ∈ entries, isBinaryEntry e = false) :
    findBinary entries = none := by
  unfold findBinary
  rw [List.findSome?_eq_none_iff]
  intro n _
  cases hb : binaryLookup entries n with
  | none => rfl
  | some e =>
    rcases binaryLookup_some entries n e hb with ⟨he, hbe, _⟩
    rw [hno e he] at hbe
    exact absurd hbe (by simp)

/-- With duplicate-free names, `findBinary` returns an eligible entry
whose name is lexicographically least among the eligible ones. -/
theorem findBinary_min (entries : List DirEntry)
    (hnd : (entries.map (fun e => e.name)).Nodup) (e : DirEntry)
    (h : findBinary entries = some e) :
    e ∈ entries ∧ isBinaryEntry e = true ∧
      ∀ x ∈ entries, isBinaryEntry x = true → strLeB e.name x.name = true := by
  haveI : IsTotal String strLeRel :=
    ⟨fun a b => lexLe_total a.data b.data⟩
  haveI : IsTrans String strLeRel :=
    ⟨fun a b c h1 h2 => lexLe_trans a.data b.data c.data h1 h2⟩
  unfold findBinary at h
  have hsorted :
      (List.insertionSort strLeRel (entries.map (fun x => x.name))).Pairwise strLeRel :=
    List.sorted_insertionSort strLeRel _
  rcases findSome?_pairwise_first strLeRel (binaryLookup entries) _ hsorted e h with
    ⟨n, hn, hgn, hmin⟩
  rcases binaryLookup_some entries n e hgn with ⟨he, hbe, hname⟩
  refine ⟨he, hbe, ?_⟩
  intro x hx hbx
  have hxmem : x.name ∈ List.insertionSort strLeRel (entries.map (fun y => y.name)) := by
    rw [List.mem_insertionSort]
    exact List.mem_map_of_mem (fun y => y.name) hx
  have hxsome : (binaryLookup entries x.name).isSome = true := by
    rw [binaryLookup_eligible entries hnd x hx hbx]
    rfl
  rcases hmin x.name hxmem hxsome with heq | hrel
  · rw [hname, ← heq]
    exact lexLe_refl n.data
  · rw [hname]
    exact hrel

/-- C5 amended: synthesis picks the lexicographically-first
non-directory ".gguf" file; with no such file it returns the absent
value (after a warning) without throwing; otherwise the synthesized
descriptor has id and name equal to the folder name, author "User"
(capitalised, not the claimed "user"), size equal to the byte length
of the chosen binary, and is persisted into the folder as
`model.json`. -/
theorem generateModelMetadata_synthesis (dirName : String) (entries : List DirEntry)
    (d : Model) (gm? : Option Obj) (t? : Option String) (now : Nat)
    (hnd : (entries.map (fun e => e.name)).Nodup) :
    ((∀ e ∈ entries, isBinaryEntry e = false) →
      generateModelMetadata dirName entries d gm? t? now = .ok none) ∧
    (∀ m w, generateModelMetadata dirName entries d gm? t? now = .ok (some (m, w)) →
      m.id = dirName ∧ m.name = dirName ∧
      getProp m.metadata "author" = .str "User" ∧
      w = { folder := dirName, file := "model.json", content := m } ∧
      ∃ e, e ∈ entries ∧ isBinaryEntry e = true ∧
        getProp m.metadata "size" = .num e.size ∧
        m.sources = [{ url := e.name, filename := some e.name }] ∧
        ∀ x ∈ entries, isBinaryEntry x = true → strLeB e.name x.name = true) := by
  constructor
  · intro hno
    unfold generateModelMetadata
    rw [findBinary_none entries hno]
  · intro m w h
    cases hfb : findBinary entries with
    | none =>
      unfold generateModelMetadata at h
      rw [hfb] at h
      exact absurd h (by simp)
    | some e =>
      unfold generateModelMetadata at h
      rw [hfb] at h
      cases hr : retrieveGGUFMetadata gm? d t? with
      | error er =>
        rw [hr] at h
        exact absurd h (by simp)
      | ok upd =>
        rw [hr] at h
        injection h with h
        injection h with h
        rw [Prod.mk.injEq] at h
        obtain ⟨hm, hw⟩ := h
        subst hm
        subst hw
        rcases findBinary_min entries hnd e hfb with ⟨he, hbe, hmin⟩
        exact ⟨rfl, rfl, rfl, rfl, e, he, hbe, rfl, rfl, hmin⟩

/-- C5 counterexample: on a folder holding one binary the synthesized
author is the capitalised "User", not the claimed "user". -/
theorem generateModelMetadata_author_capitalised :
    (generateModelMetadata "mymodel" entries0 defaultModel0 (some []) none 0).map
        (Option.map (fun p => getProp p.1.metadata "author")) =
      .ok (some (.str "User")) ∧
    JsVal.str "User" ≠ .str "user" :=
  ⟨rfl, by decide⟩

/-- Witness for the amended C5: on a mixed listing the synthesized
descriptor picks `aa.gguf` (skipping the directory `a-dir.gguf`),
takes its size, and carries author "User". -/
theorem generateModelMetadata_synthesis_witness :
    generateModelMetadata "tiny" entries1 defaultModel0 (some []) none 0 =
      .ok (some genPair1) ∧
    genPair1.1.id = "tiny" ∧
    getProp genPair1.1.metadata "author" = .str "User" ∧
    getProp genPair1.1.metadata "size" = .num 5 ∧
    genPair1.1.sources = [{ url := "aa.gguf", filename := some "aa.gguf" }] := by
  have h : generateModelMetadata "tiny" entries1 defaultModel0 (some []) none 0 =
      .ok (some (genPair1.1, genPair1.2)) := rfl
  have H := (generateModelMetadata_synthesis "tiny" entries1 defaultModel0 (some [])
      none 0 (by decide)).2 genPair1.1 genPair1.2 h
  exact ⟨h, H.1, H.2.2.1, by rfl, by rfl⟩

theorem toDigitsCore_eq_decDigits :
    ∀ (fuel n : Nat) (ds : List Char), n < fuel →
      Nat.toDigitsCore 10 fuel n ds = decDigits n ++ ds := by
  intro fuel
  induction fuel with
  | zero =>
    intro n ds h
    omega
  | succ f ih =>
    intro n ds h
    by_cases h10 : n < 10
    · have hdiv : n / 10 = 0 := Nat.div_eq_of_lt h10
      have hmod : n % 10 = n := Nat.mod_eq_of_lt h10
      simp only [Nat.toDigitsCore, hdiv, hmod, if_pos]
      rw [decDigits, dif_pos h10]
      rfl
    · have hdiv : n / 10 ≠ 0 := by
        intro hz
        exact h10 (by omega)
      have hlt : n / 10 < f := by
        have := Nat.div_lt_self (by omega : 0 < n) (by omega : 1 < 10)
        omega
      simp only [Nat.toDigitsCore, hdiv, if_neg, not_false_iff]
      rw [ih (n / 10) (Nat.digitChar (n % 10) :: ds) hlt]
      conv_rhs => rw [decDigits, dif_neg h10]
      simp

theorem digitChar_toNat : ∀ d : Nat, d < 10 → (Nat.digitChar d).toNat = d + 48 := by
  intro d h
  interval_cases d <;> rfl

theorem decodeDigits_decDigits : ∀ n : Nat, decodeDigits (decDigits n) = n := by
  intro n
  induction n using Nat.strong_induction_on with
  | _ n ih =>
    by_cases h10 : n < 10
    · rw [decDigits, dif_pos h10]
      have hd := digitChar_toNat n h10
      simp [decodeDigits, hd]
    · rw [decDigits, dif_neg h10]
      have happ : ∀ (l : List Char) (c : Char),
          decodeDigits (l ++ [c]) = 10 * decodeDigits l + (c.toNat - 48) := by
        intro l c
        simp [decodeDigits, List.foldl_append]
      rw [happ]
      have hlt : n / 10 < n :=
        Nat.div_lt_self (by omega) (by omega)
      rw [ih (n / 10) hlt]
      have hd := digitChar_toNat (n % 10) (Nat.mod_lt n (by omega))
      rw [hd]
      have := Nat.div_add_mod n 10
      omega

theorem nat_repr_inj : ∀ m n : Nat, Nat.repr m = Nat.repr n → m = n := by
  intro m n h
  have hm : Nat.repr m = (decDigits m).asString := by
    show (Nat.toDigits 10 m).asString = (decDigits m).asString
    rw [Nat.toDigits, toDigitsCore_eq_decDigits (m + 1) m [] (by omega)]
    simp
  have hn : Nat.repr n = (decDigits n).asString := by
    show (Nat.toDigits 10 n).asString = (decDigits n).asString
    rw [Nat.toDigits, toDigitsCore_eq_decDigits (n + 1) n [] (by omega)]
    simp
  rw [hm, hn] at h
  have hdata : decDigits m = decDigits n := by
    have h2 := congrArg String.data h
    simpa [List.asString] using h2
  calc m = decodeDigits (decDigits m) := (decodeDigits_decDigits m).symm
    _ = decodeDigits (decDigits n) := by rw [hdata]
    _ = n := decodeDigits_decDigits n

theorem seqCandidate_inj (name : String) :
    ∀ j k : Nat, seqCandidate name j = seqCandidate name k → j = k := by
  have hlen : ∀ i : Nat, name ≠ name ++ "-" ++ toString i := by
    intro i heq
    have hl := congrArg String.length heq
    rw [String.length_append, String.length_append] at hl
    have h1 : ("-" : String).length = 1 := rfl
    omega
  intro j k h
  by_cases hj : j = 0 <;> by_cases hk : k = 0
  · omega
  · rw [seqCandidate, if_pos hj, seqCandidate, if_neg hk] at h
    exact absurd h (hlen k)
  · rw [seqCandidate, if_neg hj, seqCandidate, if_pos hk] at h
    exact absurd h.symm (hlen j)
  · rw [seqCandidate, if_neg hj, seqCandidate, if_neg hk] at h
    have hd := congrArg String.data h
    rw [String.data_append, String.data_append] at hd
    have h2 := List.append_cancel_left hd
    have h3 : (toString j : String) = toString k := String.ext h2
    exact nat_repr_inj j k h3

theorem pathSeq_inj (root name : String) :
    ∀ j k : Nat,
      modelFolderPath root (seqCandidate name j) =
        modelFolderPath root (seqCandidate name k) → j = k := by
  intro j k h
  unfold modelFolderPath at h
  have hd := congrArg String.data h
  rw [String.data_append, String.data_append] at hd
  have h2 := List.append_cancel_left hd
  exact seqCandidate_inj name j k (String.ext h2)

theorem folderCandidate_some_eq (name : String) (c : Nat) :
    folderCandidate name (some c) = seqCandidate name c := by
  unfold folderCandidate seqCandidate
  rfl

theorem aux_eq_probeSeq (existing : List String) (root name : String) :
    ∀ (fuel c : Nat),
      getModelFolderNameAux existing root name (some c) fuel =
        probeSeq existing root name c fuel := by
  intro fuel
  induction fuel with
  | zero =>
    intro c
    rfl
  | succ f ih =>
    intro c
    simp only [getModelFolderNameAux, probeSeq, folderCandidate_some_eq]
    by_cases h : modelFolderPath root (seqCandidate name c) ∈ existing
    · simp only [h, if_pos]
      exact ih (c + 1)
    · simp [h]

theorem aux_none_eq_probeSeq (existing : List String) (root name : String) :
    ∀ fuel : Nat,
      getModelFolderNameAux existing root name none fuel =
        probeSeq existing root name 0 fuel := by
  intro fuel
  cases fuel with
  | zero => rfl
  | succ f =>
    have h0 : folderCandidate name none = seqCandidate name 0 := rfl
    simp only [getModelFolderNameAux, probeSeq, h0]
    by_cases h : modelFolderPath root (seqCandidate name 0) ∈ existing
    · simp only [h, if_pos]
      exact aux_eq_probeSeq existing root name f 1
    · simp [h]

theorem probeSeq_not_mem (existing : List String) (root name : String) :
    ∀ (fuel k : Nat) (p : String),
      probeSeq existing root name k fuel = some p → p ∉ existing := by
  intro fuel
  induction fuel with
  | zero =>
    intro k p h
    simp [probeSeq] at h
  | succ f ih =>
    intro k p h
    simp only [probeSeq] at h
    by_cases hm : modelFolderPath root (seqCandidate name k) ∈ existing
    · rw [if_pos hm] at h
      exact ih (k + 1) p h
    · rw [if_neg hm] at h
      injection h with h
      exact h ▸ hm

theorem probeSeq_first (existing : List String) (root name : String) :
    ∀ (fuel k j : Nat), k ≤ j → j < k + fuel →
      (∀ i, k ≤ i → i < j → modelFolderPath root (seqCandidate name i) ∈ existing) →
      modelFolderPath root (seqCandidate name j) ∉ existing →
      probeSeq existing root name k fuel =
        some (modelFolderPath root (seqCandidate name j)) := by
  intro fuel
  induction fuel with
  | zero =>
    intro k j h1 h2
    omega
  | succ f ih =>
    intro k j h1 h2 hbefore hfree
    rcases Nat.eq_or_lt_of_le h1 with he | hl
    · subst he
      simp only [probeSeq]
      rw [if_neg hfree]
    · have hmem : modelFolderPath root (seqCandidate name k) ∈ existing :=
        hbefore k (le_refl k) hl
      simp only [probeSeq]
      rw [if_pos hmem]
      exact ih (k + 1) j (by omega) (by omega)
        (fun i hi1 hi2 => hbefore i (by omega) hi2) hfree

theorem probeSeq_none (existing : List String) (root name : String) :
    ∀ (fuel k : Nat),
      probeSeq existing root name k fuel = none →
      ∀ j, k ≤ j → j < k + fuel →
        modelFolderPath root (seqCandidate name j) ∈ existing := by
  intro fuel
  induction fuel with
  | zero =>
    intro k _ j h1 h2
    omega
  | succ f ih =>
    intro k h j h1 h2
    simp only [probeSeq] at h
    by_cases hm : modelFolderPath root (seqCandidate name k) ∈ existing
    · rw [if_pos hm] at h
      rcases Nat.eq_or_lt_of_le h1 with he | hl
      · subst he
        exact hm
      · exact ih (k + 1) h j (by omega) (by omega)
    · rw [if_neg hm] at h
      exact absurd h (by simp)

theorem getModelFolderName_total (existing : List String) (root name : String) :
    getModelFolderName existing root name ≠ none := by
  intro hnone
  unfold getModelFolderName at hnone
  rw [aux_none_eq_probeSeq] at hnone
  have hall := probeSeq_none existing root name (existing.length + 2) 0 hnone
  have hinj : Set.InjOn (fun k => modelFolderPath root (seqCandidate name k))
      (Finset.range (existing.length + 2)) :=
    fun a _ b _ hab => pathSeq_inj root name a b hab
  have hcard := Finset.card_image_of_injOn hinj
  rw [Finset.card_range] at hcard
  have hsubset :
      (Finset.range (existing.length + 2)).image
          (fun k => modelFolderPath root (seqCandidate name k)) ⊆
        existing.toFinset := by
    intro p hp
    rw [Finset.mem_image] at hp
    rcases hp with ⟨k, hk, hpk⟩
    rw [List.mem_toFinset, ← hpk]
    rw [Finset.mem_range] at hk
    exact hall k (by omega) (by omega)
  have hle := Finset.card_le_card hsubset
  have h2 := List.toFinset_card_le existing
  omega

/-- C6: the allocator returns a path (the unbounded source recursion
terminates within the probe allowance), the returned path never names
an existing folder, and it is exactly the first candidate of the
sequence name, name-1, name-2, ... whose path does not exist. -/
theorem getModelFolderName_first_free (existing : List String) (root name : String) :
    getModelFolderName existing root name ≠ none ∧
    (∀ p, getModelFolderName existing root name = some p → p ∉ existing) ∧
    (∀ k, (∀ j, j < k → modelFolderPath root (seqCandidate name j) ∈ existing) →
      modelFolderPath root (seqCandidate name k) ∉ existing →
      getModelFolderName existing root name =
        some (modelFolderPath root (seqCandidate name k))) := by
  refine ⟨getModelFolderName_total existing root name, ?_, ?_⟩
  · intro p hp
    unfold getModelFolderName at hp
    rw [aux_none_eq_probeSeq] at hp
    exact probeSeq_not_mem existing root name _ 0 p hp
  · intro k hbefore hfree
    have hbound : k ≤ existing.length := by
      by_contra hgt
      push_neg at hgt
      have hinj : Set.InjOn (fun j => modelFolderPath root (seqCandidate name j))
          (Finset.range k) :=
        fun a _ b _ hab => pathSeq_inj root name a b hab
      have hcard := Finset.card_image_of_injOn hinj
      rw [Finset.card_range] at hcard
      have hsubset :
          (Finset.range k).image
              (fun j => modelFolderPath root (seqCandidate name j)) ⊆
            existing.toFinset := by
        intro p hp
        rw [Finset.mem_image] at hp
        rcases hp with ⟨j, hj, hpj⟩
        rw [List.mem_toFinset, ← hpj]
        rw [Finset.mem_range] at hj
        exact hbefore j hj
      have hle := Finset.card_le_card hsubset
      have h2 := List.toFinset_card_le existing
      omega
    unfold getModelFolderName
    rw [aux_none_eq_probeSeq]
    exact probeSeq_first existing root name (existing.length + 2) 0 k (by omega)
      (by omega) (fun i _ hik => hbefore i hik) hfree

/-- Witness for C6: with `foo` and `foo-1` already present, allocating
for desired name `foo` yields `foo-2`. -/
theorem getModelFolderName_first_free_witness :
    getModelFolderName existingFoo "/data" "foo" = some "/data/models/foo-2" := by
  have H := (getModelFolderName_first_free existingFoo "/data" "foo").2.2 2
    (fun j hj => by interval_cases j <;> decide)
    (by decide)
  exact H.trans (by rfl)

end JanModel
